import Mathlib

/-!
Verification of the ecmwf-api-client protocol engine (`ecmwfapi/api.py`):
a shallow embedding of the retry wrapper `robust`, the transport method
`Connection.call`, the resumable download `APIRequest._transfer`, the
download loop in `APIRequest.execute`, and the size formatter
`APIRequest._bytename`, together with theorems about their behaviour.

Conventions of the embedding:
* Decoded JSON response bodies are modelled by the inductive `Json`;
  the client only ever treats the top-level body as a JSON object
  (`dict`), so responses carry the member list of that object directly.
  (A non-object body would crash the Python client on `self.last.get`;
  no claim concerns that case.)
* Python exceptions raised by one call are modelled as explicit outcome
  values (`CallOutcome`, `RobustResult`); the mutations performed on
  `self` before an exception is raised persist, exactly as in Python.
* `time.sleep` is modelled by counting sleeps (and accumulated seconds).
* URL strings (`urljoin`, the `?offset=&limit=500` query) are not
  interpreted: no claim depends on the textual value of a URL, so the
  `Location` header is stored as given.
-/

namespace EcmwfApi

/-- JSON values as produced by `json.loads`. -/
inductive Json where
  | null : Json
  | bool : Bool → Json
  | num : Int → Json
  | str : String → Json
  | arr : List Json → Json
  | obj : List (String × Json) → Json

/-- Python `dict.get k` on a decoded JSON object: the value of the first
member named `k`, if any. -/
def jGet (m : List (String × Json)) (k : String) : Option Json :=
  (m.find? (fun kv => kv.1 == k)).map (fun kv => kv.2)

/-- Python `str()` of a JSON value, as used when the client interpolates a
body field into an error message.  Faithful for the string/number/bool
cases the claims use; container values are rendered schematically. -/
def jsonStr : Json → String
  | .null => "None"
  | .bool true => "True"
  | .bool false => "False"
  | .num n => toString n
  | .str s => s
  | .arr _ => "[...]"
  | .obj _ => "\x7b...\x7d"

/-- Python `len`/iteration length of a JSON value: lists iterate their
elements, strings their characters, dicts their keys; other values are
not iterable (`none` models the `TypeError`). -/
def pyLen : Json → Option Nat
  | .arr xs => some xs.length
  | .str s => some s.length
  | .obj m => some m.length
  | _ => none

/-! ## The exceptions seen by the retry wrapper `robust` -/

/-- The exception classes distinguished by the `except` clauses of
`robust` (api.py lines 176-217). -/
inductive PyErr where
  | httpError (code : Nat) : PyErr
  | badStatusLine : PyErr
  | urlError : PyErr
  | apiException (msg : String) : PyErr
  | retryError (code : Nat) (text : String) : PyErr
  | otherError : PyErr
deriving DecidableEq

inductive FailClass where
  | fatal : FailClass
  | retryable : FailClass
deriving DecidableEq

/-- The classification performed by the `except` clauses of `robust`:
`fatal` means the exception is re-raised at once, `retryable` means it is
stored in `last_error` and the loop sleeps and retries.
`HTTPError`: fatal iff `e.code < 500 or e.code in (501,)`;
`BadStatusLine`, `URLError`, `RetryError`: retryable;
`APIException` and any unexpected exception: fatal. -/
def classify : PyErr → FailClass
  | .httpError c => if c < 500 ∨ c = 501 then .fatal else .retryable
  | .badStatusLine => .retryable
  | .urlError => .retryable
  | .apiException _ => .fatal
  | .retryError _ _ => .retryable
  | .otherError => .fatal

/-- What a `robust`-wrapped call produces. `exhausted last` models
`raise last_error` after the budget is spent (`last = none` would be
Python raising `None`, unreachable from the real entry point). -/
inductive RobustResult (α : Type) where
  | success (v : α) : RobustResult α
  | raised (e : PyErr) : RobustResult α
  | exhausted (last : Option PyErr) : RobustResult α
deriving DecidableEq

structure RobustTrace (α : Type) where
  result : RobustResult α
  attempts : Nat
  sleeps : Nat
  sleepSeconds : Nat
deriving DecidableEq

/-- The `while tries > 0` loop of `robust`: attempt `f att`; on success
return; on a fatal failure re-raise; on a retryable failure record it,
sleep `delay = 60` seconds and decrement `tries`.  When `tries` reaches
zero, raise the recorded failure. -/
def robustGo (f : Nat → Except PyErr α) : Nat → Nat → Nat → Option PyErr → RobustTrace α
  | 0, att, sl, last => ⟨.exhausted last, att, sl, 60 * sl⟩
  | t + 1, att, sl, _last =>
    match f att with
    | .ok v => ⟨.success v, att + 1, sl, 60 * sl⟩
    | .error e =>
      match classify e with
      | .fatal => ⟨.raised e, att + 1, sl, 60 * sl⟩
      | .retryable => robustGo f t (att + 1) (sl + 1) (some e)

/-- `robust`: `max_tries = tries = 10`, `delay = 60`. -/
def robustRun (f : Nat → Except PyErr α) : RobustTrace α :=
  robustGo f 10 0 0 none

/-! ## The `Connection` transport -/

/-- The value held in `self.value`: initially the Python literal `True`
(the "not ready" sentinel), later a decoded JSON value. -/
inductive ConnValue where
  | sentinel : ConnValue
  | json (j : Json) : ConnValue

/-- The mutable fields of `Connection` touched by `call` (`__init__`,
api.py lines 274-288).  `last` is `none` until first assigned (it is also
`none` after a 204, where Python stores `None`). -/
structure ConnState where
  retry : Nat
  location : Option String
  done : Bool
  value : ConnValue
  offset : Nat
  status : Option Json
  last : Option (List (String × Json))

/-- `Connection.__init__`: `retry = 5`, `location = None`, `done = False`,
`value = True`, `offset = 0`, `status = None`. -/
def initConn : ConnState :=
  { retry := 5, location := none, done := false, value := .sentinel,
    offset := 0, status := none, last := none }

/-- A response body as the client sees it: either text that decodes to a
JSON object, or text `json.loads` rejects. -/
inductive ResBody where
  | jsonObj (members : List (String × Json)) : ResBody
  | malformed (raw : String) : ResBody

/-- One HTTP response: status code, the two headers the client reads, and
the body. -/
structure HttpResponse where
  code : Nat
  retryAfter : Option Nat
  locationHdr : Option String
  body : ResBody

/-- The raw body text `e.read()` used to build a `RetryError`; for a
well-formed body it is its JSON rendering. -/
def bodyText : ResBody → String
  | .jsonObj m => jsonStr (.obj m)
  | .malformed raw => raw

/-- `self.last` after decoding: `json.loads(body)` on success, the
synthetic `{"error": "<exception>: <body>"}` record on a decode failure
(api.py lines 355-358). -/
def lastDecoded : ResBody → List (String × Json)
  | .jsonObj m => m
  | .malformed raw => [("error", Json.str ("JSONDecodeError: " ++ raw))]

/-- Did decoding fail (which also sets the internal `error` flag)? -/
def decodeFailed : ResBody → Bool
  | .jsonObj _ => false
  | .malformed _ => true

/-- Python `self.status == "complete"` (a non-string status never
compares equal to the string). -/
def statusComplete : Option Json → Bool
  | some (.str s) => s == "complete"
  | _ => false

/-- What one `call` produces besides the new state.  `retryErr` models
`raise RetryError`, `apiError` models `raise APIException`, `pyCrash`
models an unmodelled Python `TypeError` (a `messages` value that is not a
list/str/dict cannot be iterated), `ok` is a normal return of
`self.last` (`none` for the 204 `return None`). -/
inductive CallOutcome where
  | retryErr (code : Nat) (text : String) : CallOutcome
  | apiError (msg : String) : CallOutcome
  | pyCrash : CallOutcome
  | ok (body : Option (List (String × Json))) : CallOutcome

/-- The response arrived via an `HTTPError` with `code > 299` that is
converted to a `RetryError` (api.py lines 326-335): `429` or any code
`>= 500`. -/
def isRetryPath (r : HttpResponse) (raised : Bool) : Prop :=
  raised = true ∧ 299 < r.code ∧ (r.code = 429 ∨ 500 ≤ r.code)

instance (r : HttpResponse) (raised : Bool) : Decidable (isRetryPath r raised) := by
  unfold isRetryPath; infer_instance

/-- `if code in [201, 202]: self.location = urljoin(url, res.headers.get
("Location", self.location))` (api.py lines 339-340); the `urljoin`
resolution against the request URL is not interpreted (no claim concerns
the textual URL), so the header value is stored as given. -/
def locationAfter (conn : ConnState) (r : HttpResponse) : Option String :=
  if r.code = 201 ∨ r.code = 202 then
    match r.locationHdr with
    | some l => some l
    | none => conn.location
  else conn.location

/-- `self.status = self.last.get("status", self.status)` (api.py line
364). -/
def statusAfter (conn : ConnState) (r : HttpResponse) : Option Json :=
  match jGet (lastDecoded r.body) "status" with
  | some v => some v
  | none => conn.status

/-- The `messages` field of the decoded body: `some k` when iterating it
logs `k` messages (`k = 0` when the key is absent), `none` when the value
is not iterable and the `for` loop raises `TypeError`. -/
def msgState (r : HttpResponse) : Option Nat :=
  match (jGet (lastDecoded r.body) "messages").map pyLen with
  | none => some 0
  | some (some k) => some k
  | some none => none

/-- `self.value = self.last`, unwrapped by `if isinstance(self.value,
dict) and "result" in self.value: self.value = self.value["result"]`
(api.py lines 376-379). -/
def resultOf (last : List (String × Json)) : ConnValue :=
  match jGet last "result" with
  | some res => ConnValue.json res
  | none => ConnValue.json (.obj last)

/-- The `(value, done)` pair after the two terminal checks of `call`
(api.py lines 375-383): `code == 200 and self.status == "complete"` sets
the unwrapped result, then `code in [303]` sets the raw body. -/
def valueDone (conn : ConnState) (r : HttpResponse) : ConnValue × Bool :=
  let vd1 :=
    if r.code = 200 ∧ statusComplete (statusAfter conn r) = true then
      (resultOf (lastDecoded r.body), true)
    else (conn.value, conn.done)
  if r.code = 303 then (ConnValue.json (.obj (lastDecoded r.body)), true) else vd1

/-- The part of `call` after the transport-level exception handling
(api.py lines 337-391).  `error` is the flag set by the outer
`except HTTPError` clause. -/
def afterTransport (conn : ConnState) (r : HttpResponse) (error : Bool) :
    ConnState × CallOutcome :=
  -- self.retry = int(res.headers.get("Retry-After", self.retry))
  let c1 := { conn with retry := r.retryAfter.getD conn.retry,
                        location := locationAfter conn r }
  -- if code in [204]: self.last = None; return None
  if r.code = 204 then
    ({ c1 with last := none }, .ok none)
  else
    let last := lastDecoded r.body
    let c2 := { c1 with last := some last, status := statusAfter conn r }
    -- if "messages" in self.last: for n in ...: self.offset += 1
    match msgState r with
    | none => (c2, .pyCrash)
    | some k =>
      let vd := valueDone conn r
      let c3 := { c2 with offset := conn.offset + k, value := vd.1, done := vd.2 }
      -- if "error" in self.last: raise APIException("ecmwf.API error 1: ...")
      match jGet last "error" with
      | some ev => (c3, .apiError ("ecmwf.API error 1: " ++ jsonStr ev))
      | none =>
        -- if error (outer HTTPError or malformed JSON): "ecmwf.API error 2"
        if error || decodeFailed r.body then
          (c3, .apiError ("ecmwf.API error 2: code " ++ toString r.code))
        else (c3, .ok (some last))

/-- One execution of `Connection.call` on response `r`.  `raised` states
whether `opener.open` delivered the response by raising `HTTPError`
(urllib does so for every code `urllib` does not handle as a success or
redirect); `e.code <= 299` raised responses are treated as successes by
the inner handler. -/
def callStep (conn : ConnState) (r : HttpResponse) (raised : Bool) :
    ConnState × CallOutcome :=
  if raised = true ∧ 299 < r.code then
    -- outer `except HTTPError`: error = True; 429 / >= 500 -> RetryError
    if r.code = 429 ∨ 500 ≤ r.code then
      (conn, .retryErr r.code (bodyText r.body))
    else
      afterTransport conn r true
  else
    afterTransport conn r false

/-- A sequence of calls against one connection: `wait()` and `cleanup()`
re-enter `call`, so any poll history is such a list. -/
def runCalls (s : ConnState) : List (HttpResponse × Bool) → ConnState
  | [] => s
  | (r, x) :: rest => runCalls (callStep s r x).1 rest

/-! ## `APIRequest._transfer`: the resumable download -/

/-- The `while True: chunk = http.read(...)` loop (api.py lines 501-508):
append each chunk to the file and add its length to `bytes_transferred`,
stopping at the first empty chunk (`if not chunk: break`; the HTTP
stream returns an empty read only at end of stream). -/
def writeLoop : List Nat → Nat → List (List Nat) → List Nat × Nat
  | f, n, [] => (f, n)
  | f, n, chunk :: rest =>
    if chunk = [] then (f, n) else writeLoop (f ++ chunk) (n + chunk.length) rest

/-- The observable effects of one `_transfer` call: the open mode, the
`Range` header sent (if any), the file content afterwards, and the
returned `existing_size + bytes_transferred`. -/
structure TransferOut where
  mode : String
  rangeHdr : Option String
  fileAfter : List Nat
  returned : Nat

/-- `APIRequest._transfer` (api.py lines 482-516) on a destination that
either holds content `c` (`disk = some c`, `os.path.exists` true) or does
not exist (`disk = none`): when the path exists the file is opened in
append mode and a `Range: bytes=<existing_size>-` header is sent, else
the file is created in truncate mode with no `Range` header; the server
then delivers `chunks`. -/
def transferStep (disk : Option (List Nat)) (chunks : List (List Nat)) : TransferOut :=
  let existing_size := match disk with | some c => c.length | none => 0
  let mode := match disk with | some _ => "ab" | none => "wb"
  let rangeHdr :=
    match disk with
    | some c => some ("bytes=" ++ toString c.length ++ "-")
    | none => none
  let start : List Nat := match disk with | some c => c | none => []
  let fin := writeLoop start 0 chunks
  { mode := mode, rangeHdr := rangeHdr, fileAfter := fin.1,
    returned := existing_size + fin.2 }

/-! ## The download loop in `APIRequest.execute` -/

/-- The observable outcome of the `if target:` block of `execute`:
how many `_transfer` attempts ran, how many 60-second sleeps happened,
the final value of `size`, and whether `assert size == result["size"]`
held (`assertOk = false` is the `AssertionError`). -/
structure ExecTrace where
  attempts : Nat
  sleeps : Nat
  finalSize : Int
  assertOk : Bool
deriving DecidableEq

/-- The `while size != result["size"] and tries < 10` loop of `execute`
(api.py lines 546-559), with the terminal `assert`.  `chunks att` is what
the server delivers on attempt `att`; the file persists between attempts
so each `_transfer` resumes from the previous content.  The loop body
increments `tries` and sleeps 60 seconds when the size still differs,
otherwise breaks.  `fuel` only bounds the recursion; `fuel = 11` is
enough because `tries` grows on every iteration. -/
def dlGo (S : Int) (chunks : Nat → List (List Nat)) :
    Nat → Nat → Option (List Nat) → Int → Nat → Nat → ExecTrace
  | 0, _, _, size, att, sl => ⟨att, sl, size, decide (size = S)⟩
  | fuel + 1, tries, disk, size, att, sl =>
    if size ≠ S ∧ tries < 10 then
      let t := transferStep disk (chunks att)
      let size' : Int := t.returned
      if size' ≠ S ∧ tries < 10 then
        dlGo S chunks fuel (tries + 1) (some t.fileAfter) size' (att + 1) (sl + 1)
      else
        ⟨att + 1, sl, size', decide (size' = S)⟩
    else
      ⟨att, sl, size, decide (size = S)⟩

/-- The `if target:` block of `execute` (api.py lines 539-559): a target
that already exists (with content `pre`) is first truncated by
`open(target, "w").close()`, so the loop starts on an existing empty
file; an absent target starts with no file.  `size` starts at `-1` and
`tries` at `0`. -/
def executeDownload (S : Int) (chunks : Nat → List (List Nat))
    (pre : Option (List Nat)) : ExecTrace :=
  let disk0 : Option (List Nat) :=
    match pre with
    | some _ => some []
    | none => none
  dlGo S chunks 11 0 disk0 (-1) 0 0

/-- Total bytes on disk after `m` attempts (every attempt appends what
`writeLoop` wrote). -/
def cumBytes (chunks : Nat → List (List Nat)) : Nat → Nat
  | 0 => 0
  | m + 1 => cumBytes chunks m + (writeLoop [] 0 (chunks m)).2

/-! ## `APIRequest._bytename`: the human-readable size formatter -/

/-- Successive values of the lookup `prefix[l]` in `_bytename`: the dict
`{"": "K", "K": "M", "M": "G", "G": "T", "T": "P", "P": "E"}` is the
successor map along this chain (and has no entry for `"E"`). -/
def bytenameChain : List String := ["K", "M", "G", "T", "P", "E"]

/-- The `while 1024 < size` loop of `_bytename` (api.py lines 474-476),
carrying the chain of prefixes still available for `l`: when the guard
holds and the chain is exhausted, `prefix[l]` raises `KeyError`
(modelled as `none`).  The division `size / 1024` is exact in IEEE
double arithmetic (1024 is a power of two), so the float loop computes
these exact rationals.  Also counts the divisions performed. -/
def bytenameLoop : List String → String → ℚ → Nat → Option (ℚ × String × Nat)
  | [], l, size, d => if 1024 < size then none else some (size, l, d)
  | p :: rest, l, size, d =>
    if 1024 < size then bytenameLoop rest p (size / 1024) (d + 1)
    else some (size, l, d)

/-- `size * 1.0`: conversion of a Python int to an IEEE double, i.e.
rounding to 53 significant bits, ties to even.  (`bitLen` uses a fixed
fuel of 1100 recursion steps, enough for any value below `2^1100`;
Python itself overflows at `2^1024`.) -/
def bitLenAux : Nat → Nat → Nat
  | 0, _ => 0
  | fuel + 1, n => if n = 0 then 0 else bitLenAux fuel (n / 2) + 1

def bitLen (n : Nat) : Nat := bitLenAux 1100 n

def floatOfNat (n : Nat) : ℚ :=
  let k := bitLen n
  if k ≤ 53 then (n : ℚ)
  else
    let shift := k - 53
    let q := n / 2 ^ shift
    let r := n % 2 ^ shift
    let half := 2 ^ (shift - 1)
    let q2 := if half < r ∨ (r = half ∧ q % 2 = 1) then q + 1 else q
    (q2 : ℚ) * 2 ^ shift

/-- The observable parts of the string `_bytename` returns: the scaled
magnitude (printed with `%g`), the unit letter, and whether the plural
`s` was appended (`if size > 1`); plus the number of divisions taken. -/
structure ByteName where
  scaled : ℚ
  unit : String
  plural : Bool
  divisions : Nat
deriving DecidableEq

/-- `APIRequest._bytename` (api.py lines 470-480), `none` modelling the
`KeyError` escape. -/
def bytename (size : Nat) : Option ByteName :=
  match bytenameLoop bytenameChain "" (floatOfNat size) 0 with
  | none => none
  | some (s, l, d) =>
    some { scaled := s, unit := l, plural := decide (1 < s), divisions := d }

/-- `Connection.ready()` returns the completion flag. -/
def ready (s : ConnState) : Bool := s.done

/-- `Connection.result()` returns the held value. -/
def result (s : ConnState) : ConnValue := s.value

/-! ## Helper lemmas about the retry loop -/

/-- Behaviour of the `robust` loop from an arbitrary intermediate state:
`att`/`sl` count attempts and sleeps so far, `t` is the remaining budget. -/
lemma robustGo_spec (f : Nat → Except PyErr α) :
    ∀ (t att sl : Nat) (last : Option PyErr),
    (robustGo f t att sl last).attempts ≤ att + t ∧
    (robustGo f t att sl last).sleepSeconds = 60 * (robustGo f t att sl last).sleeps ∧
    ((∃ v, (robustGo f t att sl last).result = .success v) ∨
       (∃ e, (robustGo f t att sl last).result = .raised e) →
      (robustGo f t att sl last).attempts + sl =
        (robustGo f t att sl last).sleeps + att + 1) ∧
    (∀ l, (robustGo f t att sl last).result = .exhausted l →
      (robustGo f t att sl last).attempts = att + t ∧
      (robustGo f t att sl last).sleeps = sl + t ∧
      (t = 0 → l = last) ∧
      (0 < t → ∃ e, l = some e ∧ f (att + t - 1) = .error e ∧
        classify e = .retryable)) := by
  intro t
  induction t with
  | zero =>
    intro att sl last
    refine ⟨Nat.le_refl _, rfl, ?_, ?_⟩
    · rintro (⟨v, hv⟩ | ⟨e, he⟩)
      · simp [robustGo] at hv
      · simp [robustGo] at he
    · intro l hl
      simp only [robustGo] at hl ⊢
      cases hl
      exact ⟨rfl, rfl, fun _ => rfl, fun h => absurd h (by omega)⟩
  | succ t ih =>
    intro att sl last
    cases hf : f att with
    | ok v =>
      simp only [robustGo, hf]
      refine ⟨by omega, trivial, fun _ => by omega, ?_⟩
      intro l hl; simp at hl
    | error e =>
      cases hc : classify e with
      | fatal =>
        simp only [robustGo, hf, hc]
        refine ⟨by omega, trivial, fun _ => by omega, ?_⟩
        intro l hl; simp at hl
      | retryable =>
        simp only [robustGo, hf, hc]
        obtain ⟨h1, h2, h3, h4⟩ := ih (att + 1) (sl + 1) (some e)
        refine ⟨by omega, h2, fun h => by have := h3 h; omega, ?_⟩
        intro l hl
        obtain ⟨e1, e2, e3, e4⟩ := h4 l hl
        refine ⟨by omega, by omega, fun h0 => by omega, fun _ => ?_⟩
        rcases Nat.eq_zero_or_pos t with ht | ht
        · subst ht
          refine ⟨e, e3 rfl ▸ rfl, ?_, hc⟩
          simpa using hf
        · obtain ⟨e', he1, he2, he3⟩ := e4 ht
          refine ⟨e', he1, ?_, he3⟩
          have : att + 1 + t - 1 = att + (t + 1) - 1 := by omega
          rw [← this]; exact he2

/-! ## Claim C3: the retry budget of `robust` -/

/-- Claim C3 counterexample: when every attempt fails retryably the
wrapper makes 10 attempts but sleeps 10 times, not `attempts - 1 = 9`:
the loop sleeps after the tenth failure too, just before raising the
recorded error. -/
theorem robust_sleep_count_counterexample :
    (robustRun (fun _ => (.error .urlError : Except PyErr Unit))).attempts = 10 ∧
    (robustRun (fun _ => (.error .urlError : Except PyErr Unit))).sleeps = 10 ∧
    (robustRun (fun _ => (.error .urlError : Except PyErr Unit))).sleeps ≠
      (robustRun (fun _ => (.error .urlError : Except PyErr Unit))).attempts - 1 ∧
    (robustRun (fun _ => (.error .urlError : Except PyErr Unit))).result =
      .exhausted (some .urlError) := by
  decide

/-- Claim C3 (amended): every wrapped call makes at most 10 attempts
(1 initial + 9 retries) with a fixed 60-second delay and no backoff
growth; the sleep occurs exactly `attempts - 1` times whenever the call
returns or fails fatally, but on budget exhaustion the wrapper sleeps
after every one of the 10 failed attempts (10 sleeps) and then surfaces
the last retryable failure captured. -/
theorem robust_budget_amended (f : Nat → Except PyErr α) :
    (robustRun f).attempts ≤ 10 ∧
    (robustRun f).sleepSeconds = 60 * (robustRun f).sleeps ∧
    ((∃ v, (robustRun f).result = .success v) ∨
       (∃ e, (robustRun f).result = .raised e) →
      (robustRun f).sleeps + 1 = (robustRun f).attempts) ∧
    (∀ l, (robustRun f).result = .exhausted l →
      (robustRun f).attempts = 10 ∧ (robustRun f).sleeps = 10 ∧
      ∃ e, l = some e ∧ f 9 = .error e ∧ classify e = .retryable) := by
  simp only [robustRun]
  obtain ⟨h1, h2, h3, h4⟩ := robustGo_spec f 10 0 0 none
  refine ⟨h1, h2, fun h => by have := h3 h; omega, fun l hl => ?_⟩
  obtain ⟨e1, e2, _, e4⟩ := h4 l hl
  obtain ⟨e, he1, he2, he3⟩ := e4 (by omega)
  exact ⟨e1, e2, e, he1, he2, he3⟩

/-- Witness for `robust_budget_amended`: the exhaustion branch on a call
failing every time with a 503 `RetryError`, and the success branch on a
call succeeding at once. -/
theorem robust_budget_amended_witness :
    (robustRun (fun _ => (.error (.retryError 503 "busy") : Except PyErr Unit))).attempts
        = 10 ∧
    (robustRun (fun _ => (.ok () : Except PyErr Unit))).sleeps + 1 =
      (robustRun (fun _ => (.ok () : Except PyErr Unit))).attempts := by
  constructor
  · exact ((robust_budget_amended
      (fun _ => (.error (.retryError 503 "busy") : Except PyErr Unit))).2.2.2
      (some (.retryError 503 "busy")) (by decide)).1
  · exact (robust_budget_amended (fun _ => (.ok () : Except PyErr Unit))).2.2.1
      (Or.inl ⟨(), by decide⟩)

/-! ## Claim C1: failure classification over status codes -/

/-- Claim C1 counterexample: the classification table of the claim is not
what the code implements.  A raw `HTTPError` 429 reaching `robust` (as
from `_transfer`) is fatal, although the claim says 429 is retryable;
and a 501 response to `call` is converted to a `RetryError` (since
`501 >= 500`), which `robust` always retries, although the claim says
501 is fatal. -/
theorem retry_classification_counterexample :
    classify (.httpError 429) = .fatal ∧
    (callStep initConn ⟨501, none, none, .jsonObj []⟩ true).2 =
      .retryErr 501 (bodyText (.jsonObj [])) ∧
    classify (.retryError 501 (bodyText (.jsonObj []))) = .retryable := by
  refine ⟨by decide, by rfl, by rfl⟩

/-- Claim C1 (amended): `robust` itself classifies a raw `HTTPError` with
code `c` as fatal iff `c < 500 ∨ c = 501`; but `Connection.call` converts
every response delivered as an `HTTPError` with code 429 or `>= 500`
(501 included) into a `RetryError`, which `robust` always retries, and
every other such response with code `> 299` into the fatal
`APIException`.  So through `call` a decoded code is retryable iff
`c = 429 ∨ 500 ≤ c`, while through a raw `HTTPError` it is retryable iff
`500 ≤ c ∧ c ≠ 501`. -/
theorem retry_classification_amended (c : Nat) :
    (classify (.httpError c) = .fatal ↔ (c < 500 ∨ c = 501)) ∧
    (classify (.httpError c) = .retryable ↔ (500 ≤ c ∧ c ≠ 501)) ∧
    (∀ (s : ConnState) (r : HttpResponse), r.code = c → 299 < c →
      (c = 429 ∨ 500 ≤ c) →
      (callStep s r true).2 = .retryErr c (bodyText r.body) ∧
      classify (.retryError c (bodyText r.body)) = .retryable) ∧
    (∀ (s : ConnState) (r : HttpResponse), r.code = c → 299 < c →
      ¬(c = 429 ∨ 500 ≤ c) →
      msgState r ≠ none →
      ∃ m, (callStep s r true).2 = .apiError m ∧
        classify (.apiException m) = .fatal) := by
  refine ⟨?_, ?_, ?_, ?_⟩
  · simp only [classify]
    split_ifs with h
    · simpa using h
    · simp [h]
  · simp only [classify]
    split_ifs with h
    · constructor
      · intro hh; cases hh
      · intro hh; omega
    · simp; omega
  · intro s r hrc h299 hcls
    subst hrc
    unfold callStep
    rw [if_pos (⟨rfl, h299⟩ : true = true ∧ 299 < r.code), if_pos hcls]
    exact ⟨rfl, rfl⟩
  · intro s r hrc h299 hcls hmsg
    subst hrc
    have h204 : ¬ r.code = 204 := by omega
    have hstep : callStep s r true = afterTransport s r true := by
      unfold callStep
      rw [if_pos (⟨rfl, h299⟩ : true = true ∧ 299 < r.code), if_neg hcls]
    rw [hstep]
    simp only [afterTransport, if_neg h204]
    rcases hms : msgState r with _ | k
    · exact absurd hms hmsg
    · rcases he : jGet (lastDecoded r.body) "error" with _ | ev
      · exact ⟨"ecmwf.API error 2: code " ++ toString r.code,
          by simp [hms, he], rfl⟩
      · exact ⟨"ecmwf.API error 1: " ++ jsonStr ev, by simp [hms, he], rfl⟩

/-- Witness for `retry_classification_amended`: a 501 response through
`call` becomes a retryable `RetryError`; a 404 response through `call`
becomes a fatal `APIException`. -/
theorem retry_classification_amended_witness :
    ((callStep initConn ⟨501, none, none, .jsonObj []⟩ true).2 =
        .retryErr 501 (bodyText (.jsonObj [])) ∧
      classify (.retryError 501 (bodyText (.jsonObj []))) = .retryable) ∧
    ∃ m, (callStep initConn ⟨404, none, none, .jsonObj []⟩ true).2 = .apiError m ∧
      classify (.apiException m) = .fatal := by
  constructor
  · exact (retry_classification_amended 501).2.2.1 initConn
      ⟨501, none, none, .jsonObj []⟩ rfl (by omega) (by omega)
  · exact (retry_classification_amended 404).2.2.2 initConn
      ⟨404, none, none, .jsonObj []⟩ rfl (by omega) (by omega) (by decide)

/-! ## Claim C4: the resumable transfer -/

/-- The chunk loop writes the same bytes whatever the starting file
content and counter are: it appends what it would write to an empty
file and adds the corresponding count. -/
lemma writeLoop_eq (chunks : List (List Nat)) :
    ∀ (f : List Nat) (n : Nat),
      writeLoop f n chunks =
        (f ++ (writeLoop [] 0 chunks).1, n + (writeLoop [] 0 chunks).2) := by
  induction chunks with
  | nil => intro f n; simp [writeLoop]
  | cons c rest ih =>
    intro f n
    by_cases hc : c = []
    · simp [writeLoop, hc]
    · simp only [writeLoop, if_neg hc, List.nil_append, Nat.zero_add]
      rw [ih (f ++ c), ih c]
      simp [List.append_assoc]
      omega

/-- The byte counter of the chunk loop equals the length of what it
wrote. -/
lemma writeLoop_len (chunks : List (List Nat)) :
    (writeLoop [] 0 chunks).1.length = (writeLoop [] 0 chunks).2 := by
  induction chunks with
  | nil => simp [writeLoop]
  | cons c rest ih =>
    by_cases hc : c = []
    · simp [writeLoop, hc]
    · simp only [writeLoop, if_neg hc, List.nil_append, Nat.zero_add]
      rw [writeLoop_eq rest c c.length]
      simp [ih]

/-- Claim C4 counterexample: on a destination file that exists but is
empty, `_transfer` opens in append mode and sends `Range: bytes=0-`,
not (as the claim states for the exists-and-empty case) truncate mode
with no `Range` header.  The condition in the code is existence alone. -/
theorem transfer_empty_file_counterexample :
    (transferStep (some []) [[1, 2, 3]]).mode = "ab" ∧
    (transferStep (some []) [[1, 2, 3]]).rangeHdr = some "bytes=0-" ∧
    ¬ ((transferStep (some []) [[1, 2, 3]]).mode = "wb" ∧
       (transferStep (some []) [[1, 2, 3]]).rangeHdr = none) := by
  refine ⟨rfl, rfl, ?_⟩
  intro h
  exact absurd h.1 (by decide)

/-- Claim C4 (amended): `_transfer` resumes with an
`Range: bytes=<existing_size>-` header and append mode exactly when the
destination file exists — even when it is empty (then
`Range: bytes=0-`); only when the file is absent does it start fresh in
truncate mode with no `Range` header.  It returns the existing on-disk
size plus the bytes transferred in this attempt, which is the length of
the resulting file. -/
theorem transfer_amended (disk : Option (List Nat)) (chunks : List (List Nat)) :
    (∀ c, disk = some c →
      (transferStep disk chunks).mode = "ab" ∧
      (transferStep disk chunks).rangeHdr =
        some ("bytes=" ++ toString c.length ++ "-") ∧
      (transferStep disk chunks).fileAfter = c ++ (writeLoop [] 0 chunks).1 ∧
      (transferStep disk chunks).returned =
        c.length + (writeLoop [] 0 chunks).2) ∧
    (disk = none →
      (transferStep disk chunks).mode = "wb" ∧
      (transferStep disk chunks).rangeHdr = none ∧
      (transferStep disk chunks).fileAfter = (writeLoop [] 0 chunks).1 ∧
      (transferStep disk chunks).returned = (writeLoop [] 0 chunks).2) ∧
    (transferStep disk chunks).fileAfter.length =
      (transferStep disk chunks).returned := by
  refine ⟨?_, ?_, ?_⟩
  · rintro c rfl
    refine ⟨rfl, rfl, ?_, ?_⟩
    · simp only [transferStep, writeLoop_eq chunks c 0]
    · simp only [transferStep, writeLoop_eq chunks c 0]
      omega
  · rintro rfl
    exact ⟨rfl, rfl, by simp [transferStep], by simp [transferStep]⟩
  · rcases disk with _ | c
    · simp [transferStep, writeLoop_len]
    · simp only [transferStep, writeLoop_eq chunks c 0]
      simp [writeLoop_len]

/-- Witness for `transfer_amended`: a two-byte existing file resumed
with two one-byte chunks. -/
theorem transfer_amended_witness :
    (transferStep (some [7, 8]) [[1], [2]]).mode = "ab" ∧
    (transferStep (some [7, 8]) [[1], [2]]).rangeHdr = some "bytes=2-" ∧
    (transferStep (some [7, 8]) [[1], [2]]).fileAfter = [7, 8, 1, 2] ∧
    (transferStep (some [7, 8]) [[1], [2]]).returned = 4 :=
  (transfer_amended (some [7, 8]) [[1], [2]]).1 [7, 8] rfl

/-! ## Helper lemmas about `callStep` -/

/-- On the `RetryError` conversion path the connection state is
untouched (the exception is raised before any field assignment). -/
lemma callStep_retryPath (s : ConnState) (r : HttpResponse) (x : Bool)
    (h : isRetryPath r x) :
    callStep s r x = (s, .retryErr r.code (bodyText r.body)) := by
  obtain ⟨h1, h2, h3⟩ := h
  unfold callStep
  rw [if_pos (⟨h1, h2⟩ : x = true ∧ 299 < r.code), if_pos h3]

/-- Off the `RetryError` path, `callStep` is `afterTransport` with some
value of the internal error flag. -/
lemma callStep_state (s : ConnState) (r : HttpResponse) (x : Bool)
    (h : ¬ isRetryPath r x) :
    ∃ b, callStep s r x = afterTransport s r b := by
  unfold callStep
  by_cases h1 : x = true ∧ 299 < r.code
  · rw [if_pos h1]
    have h2 : ¬ (r.code = 429 ∨ 500 ≤ r.code) := fun hc => h ⟨h1.1, h1.2, hc⟩
    rw [if_neg h2]
    exact ⟨true, rfl⟩
  · rw [if_neg h1]
    exact ⟨false, rfl⟩

/-- The 204 branch of `call`. -/
lemma afterTransport_204 (conn : ConnState) (r : HttpResponse) (b : Bool)
    (h : r.code = 204) :
    afterTransport conn r b =
      ({ conn with retry := r.retryAfter.getD conn.retry,
                   location := locationAfter conn r, last := none }, .ok none) := by
  simp [afterTransport, h]

/-- The branch where iterating `messages` raises `TypeError`: `status`
and `last` are already updated, nothing else is. -/
lemma afterTransport_crash (conn : ConnState) (r : HttpResponse) (b : Bool)
    (h204 : r.code ≠ 204) (hms : msgState r = none) :
    afterTransport conn r b =
      ({ conn with retry := r.retryAfter.getD conn.retry,
                   location := locationAfter conn r,
                   last := some (lastDecoded r.body),
                   status := statusAfter conn r }, .pyCrash) := by
  simp [afterTransport, h204, hms]

/-- The fully decoded branch: the state update is the same whatever the
error flag and whatever the outcome. -/
lemma afterTransport_decoded (conn : ConnState) (r : HttpResponse) (b : Bool)
    (h204 : r.code ≠ 204) (k : Nat) (hms : msgState r = some k) :
    (afterTransport conn r b).1 =
      { conn with retry := r.retryAfter.getD conn.retry,
                  location := locationAfter conn r,
                  last := some (lastDecoded r.body),
                  status := statusAfter conn r,
                  offset := conn.offset + k,
                  value := (valueDone conn r).1,
                  done := (valueDone conn r).2 } := by
  simp only [afterTransport, if_neg h204, hms]
  rcases he : jGet (lastDecoded r.body) "error" with _ | ev
  · simp [he]
    split_ifs <;> rfl
  · simp [he]

/-! ## Claim C8: the 204 frame condition -/

/-- Claim C8: on an HTTP 204 response the body is not decoded, the call
returns the explicit null (`ok none`, with `self.last = None`), and the
fields `status`, `offset`, `done` and `value` are unchanged; only
`retry` (from the `Retry-After` header) is updated, and `location` is in
fact also unchanged since 204 is not 201/202. -/
theorem call_204_frame (s : ConnState) (r : HttpResponse) (x : Bool)
    (h : r.code = 204) :
    (callStep s r x).1.status = s.status ∧
    (callStep s r x).1.offset = s.offset ∧
    (callStep s r x).1.done = s.done ∧
    (callStep s r x).1.value = s.value ∧
    (callStep s r x).1.retry = r.retryAfter.getD s.retry ∧
    (callStep s r x).1.location = s.location ∧
    (callStep s r x).1.last = none ∧
    (callStep s r x).2 = .ok none := by
  have hnr : ¬ isRetryPath r x := by rintro ⟨-, h2, -⟩; omega
  obtain ⟨b, hb⟩ := callStep_state s r x hnr
  rw [hb, afterTransport_204 s r b h]
  refine ⟨rfl, rfl, rfl, rfl, rfl, ?_, rfl, rfl⟩
  simp [locationAfter, h]

/-- Witness for `call_204_frame`: a 204 response carrying a
`Retry-After: 7` header against the freshly constructed connection. -/
theorem call_204_frame_witness :
    (callStep initConn ⟨204, some 7, none, .jsonObj []⟩ false).1.offset =
      initConn.offset ∧
    (callStep initConn ⟨204, some 7, none, .jsonObj []⟩ false).1.retry = 7 ∧
    (callStep initConn ⟨204, some 7, none, .jsonObj []⟩ false).2 = .ok none := by
  obtain ⟨-, h2, -, -, h5, -, -, h8⟩ :=
    call_204_frame initConn ⟨204, some 7, none, .jsonObj []⟩ false rfl
  exact ⟨h2, h5, h8⟩

/-! ## Claim C9: the completion flag is monotone -/

/-- One call never resets `done`: it is assigned only `true`, in the two
terminal branches. -/
lemma done_mono_step (s : ConnState) (r : HttpResponse) (x : Bool)
    (h : s.done = true) : (callStep s r x).1.done = true := by
  by_cases hr : isRetryPath r x
  · rw [callStep_retryPath s r x hr]; exact h
  · obtain ⟨b, hb⟩ := callStep_state s r x hr
    rw [hb]
    by_cases h204 : r.code = 204
    · rw [afterTransport_204 s r b h204]; exact h
    · rcases hms : msgState r with _ | k
      · rw [afterTransport_crash s r b h204 hms]; exact h
      · rw [afterTransport_decoded s r b h204 k hms]
        show (valueDone s r).2 = true
        simp only [valueDone]
        split_ifs <;> simp [h]

/-- Claim C9: once `done` is true, no later sequence of operations
(`call`, `wait`, `cleanup` all re-enter `call`; `ready` and `result` are
pure) ever resets it, so `ready()` stays true. -/
theorem done_monotone (s : ConnState) (r : HttpResponse) (x : Bool)
    (L : List (HttpResponse × Bool)) (h : s.done = true) :
    (callStep s r x).1.done = true ∧
    (runCalls s L).done = true ∧
    ready (runCalls s L) = true := by
  refine ⟨done_mono_step s r x h, ?_, ?_⟩ <;>
  · show _ = true
    induction L generalizing s with
    | nil => exact h
    | cons p rest ih =>
      rcases p with ⟨r', x'⟩
      exact ih (callStep s r' x').1 (done_mono_step s r' x' h)

/-- Witness for `done_monotone`: a completed connection polled again
with a 404 and a 204 stays completed. -/
theorem done_monotone_witness :
    (runCalls { initConn with done := true }
      [(⟨404, none, none, .jsonObj []⟩, true),
       (⟨204, none, none, .jsonObj []⟩, false)]).done = true :=
  (done_monotone { initConn with done := true }
    ⟨404, none, none, .jsonObj []⟩ true
    [(⟨404, none, none, .jsonObj []⟩, true),
     (⟨204, none, none, .jsonObj []⟩, false)] rfl).2.1

/-! ## Claim C6: message-offset arithmetic -/

/-- How much one call adds to `offset`: the number of entries of the
decoded body's `messages` list (0 when there is no decoded body: the
`RetryError` path, a 204, or an uniterable `messages` value whose
`TypeError` fires before any increment). -/
def msgAdded (r : HttpResponse) (x : Bool) : Nat :=
  if isRetryPath r x ∨ r.code = 204 then 0
  else (msgState r).getD 0

/-- Claim C6: each call advances `offset` by exactly the number of
messages in the decoded response body and never decreases it; over any
sequence of polls `offset` is monotone, so the `?offset=` cursor never
re-fetches a message already counted. -/
theorem offset_monotone (s : ConnState) (r : HttpResponse) (x : Bool) :
    (callStep s r x).1.offset = s.offset + msgAdded r x ∧
    s.offset ≤ (callStep s r x).1.offset ∧
    ∀ (s' : ConnState) (L : List (HttpResponse × Bool)),
      s'.offset ≤ (runCalls s' L).offset := by
  have hstep : ∀ (s' : ConnState) (r' : HttpResponse) (x' : Bool),
      (callStep s' r' x').1.offset = s'.offset + msgAdded r' x' := by
    intro s' r' x'
    by_cases hr : isRetryPath r' x'
    · rw [callStep_retryPath s' r' x' hr]
      simp [msgAdded, hr]
    · obtain ⟨b, hb⟩ := callStep_state s' r' x' hr
      rw [hb]
      by_cases h204 : r'.code = 204
      · rw [afterTransport_204 s' r' b h204]
        simp [msgAdded, h204]
      · rcases hms : msgState r' with _ | k
        · rw [afterTransport_crash s' r' b h204 hms]
          simp [msgAdded, hr, h204, hms]
        · rw [afterTransport_decoded s' r' b h204 k hms]
          simp [msgAdded, hr, h204, hms]
  refine ⟨hstep s r x, by rw [hstep s r x]; omega, ?_⟩
  intro s' L
  induction L generalizing s' with
  | nil => exact Nat.le_refl _
  | cons p rest ih =>
    rcases p with ⟨r', x'⟩
    calc s'.offset ≤ (callStep s' r' x').1.offset := by rw [hstep]; omega
    _ ≤ (runCalls (callStep s' r' x').1 rest).offset := ih _

/-! ## Claim C7: a decoded `error` key is fatal with zero retries -/

/-- Claim C7: whenever the decoded body (including the synthetic record
built for malformed JSON) contains an `error` key, `call` raises the
typed `APIException` carrying that message, and `robust` re-raises any
`APIException` on the first attempt: one attempt, zero sleeps. -/
theorem error_key_fatal (s : ConnState) (r : HttpResponse) (x : Bool)
    (hnr : ¬ isRetryPath r x) (h204 : r.code ≠ 204)
    (k : Nat) (hms : msgState r = some k)
    (ev : Json) (herr : jGet (lastDecoded r.body) "error" = some ev) :
    (callStep s r x).2 = .apiError ("ecmwf.API error 1: " ++ jsonStr ev) ∧
    ∀ (g : Nat → Except PyErr Unit) (m : String),
      g 0 = .error (.apiException m) →
      robustRun g = ⟨.raised (.apiException m), 1, 0, 0⟩ := by
  constructor
  · obtain ⟨b, hb⟩ := callStep_state s r x hnr
    rw [hb]
    simp only [afterTransport, if_neg h204, hms, herr]
  · intro g m hg
    simp [robustRun, robustGo, hg, classify]

/-- Witness for `error_key_fatal`: the queue-limit scenario, a 200
response whose body is `{"error": "USER_QUEUED_LIMIT_EXCEEDED"}`. -/
theorem error_key_fatal_witness :
    (callStep initConn
        ⟨200, none, none, .jsonObj [("error", .str "USER_QUEUED_LIMIT_EXCEEDED")]⟩
        false).2 =
      .apiError "ecmwf.API error 1: USER_QUEUED_LIMIT_EXCEEDED" ∧
    robustRun (fun _ =>
        (.error (.apiException "ecmwf.API error 1: USER_QUEUED_LIMIT_EXCEEDED") :
          Except PyErr Unit)) =
      ⟨.raised (.apiException "ecmwf.API error 1: USER_QUEUED_LIMIT_EXCEEDED"),
        1, 0, 0⟩ := by
  obtain ⟨h1, h2⟩ := error_key_fatal initConn
    ⟨200, none, none, .jsonObj [("error", .str "USER_QUEUED_LIMIT_EXCEEDED")]⟩
    false (by decide) (by decide) 0 (by decide)
    (.str "USER_QUEUED_LIMIT_EXCEEDED") rfl
  exact ⟨h1, h2 _ _ rfl⟩

/-! ## Claim C2: completion detection and the held result -/

/-- One call preserves the invariant relating `done` and the sentinel:
`value` is only ever assigned together with `done := true`. -/
lemma sentinel_inv_step (s : ConnState) (r : HttpResponse) (x : Bool)
    (hinv : s.done = false → s.value = .sentinel)
    (h : (callStep s r x).1.done = false) :
    (callStep s r x).1.value = .sentinel := by
  by_cases hr : isRetryPath r x
  · rw [callStep_retryPath s r x hr] at h ⊢; exact hinv h
  · obtain ⟨b, hb⟩ := callStep_state s r x hr
    rw [hb] at h ⊢
    by_cases h204 : r.code = 204
    · rw [afterTransport_204 s r b h204] at h ⊢; exact hinv h
    · rcases hms : msgState r with _ | k
      · rw [afterTransport_crash s r b h204 hms] at h ⊢; exact hinv h
      · rw [afterTransport_decoded s r b h204 k hms] at h ⊢
        revert h
        show (valueDone s r).2 = false → (valueDone s r).1 = _
        simp only [valueDone]
        split_ifs with h1 h2
        · intro h; cases h
        · intro h; cases h
        · exact hinv

/-- Claim C2: `done` becomes true on a call iff the call decoded a body
(not the `RetryError` path, not a 204) and either the HTTP code was 200
with the merged status `"complete"`, or the HTTP code was 303; before
completion `result()` returns the not-ready sentinel (`True`); at a 303
completion the held value is the decoded body, and at a 200/complete
completion it is the body with a nested `result` key unwrapped. -/
theorem completion_detection (s : ConnState) (r : HttpResponse) (x : Bool) :
    (msgState r ≠ none →
      ((callStep s r x).1.done = true ↔
        (s.done = true ∨ (¬ isRetryPath r x ∧ r.code ≠ 204 ∧
          ((r.code = 200 ∧ statusComplete (statusAfter s r) = true) ∨
            r.code = 303))))) ∧
    (∀ L, (runCalls initConn L).done = false →
      result (runCalls initConn L) = .sentinel) ∧
    (¬ isRetryPath r x → msgState r ≠ none → r.code = 303 →
      (callStep s r x).1.value = .json (.obj (lastDecoded r.body)) ∧
      (callStep s r x).1.done = true) ∧
    (¬ isRetryPath r x → msgState r ≠ none → r.code = 200 →
      statusComplete (statusAfter s r) = true →
      (callStep s r x).1.value = resultOf (lastDecoded r.body) ∧
      (callStep s r x).1.done = true) := by
  refine ⟨?_, ?_, ?_, ?_⟩
  · intro hmsg
    by_cases hr : isRetryPath r x
    · rw [callStep_retryPath s r x hr]
      simp [hr]
    · obtain ⟨b, hb⟩ := callStep_state s r x hr
      rw [hb]
      by_cases h204 : r.code = 204
      · rw [afterTransport_204 s r b h204]
        simp [h204]
      · rcases hms : msgState r with _ | k
        · exact absurd hms hmsg
        · rw [afterTransport_decoded s r b h204 k hms]
          show (valueDone s r).2 = true ↔ _
          simp only [valueDone]
          split_ifs with h1 h2
          · simp [hr, h204, h1]
          · simp [hr, h204, h2]
          · constructor
            · intro h; exact Or.inl h
            · rintro (h | ⟨-, -, hc | hc⟩)
              · exact h
              · exact absurd hc h2
              · exact absurd hc h1
  · intro L
    have : ∀ (M : List (HttpResponse × Bool)) (s' : ConnState),
        (s'.done = false → s'.value = .sentinel) →
        (runCalls s' M).done = false → (runCalls s' M).value = .sentinel := by
      intro M
      induction M with
      | nil => intro s' hinv h; exact hinv h
      | cons p rest ih =>
        rcases p with ⟨r', x'⟩
        intro s' hinv h
        exact ih (callStep s' r' x').1 (sentinel_inv_step s' r' x' hinv) h
    exact this L initConn (fun _ => rfl)
  · intro hr hmsg h303
    have h204 : r.code ≠ 204 := by omega
    obtain ⟨b, hb⟩ := callStep_state s r x hr
    rcases hms : msgState r with _ | k
    · exact absurd hms hmsg
    · rw [hb, afterTransport_decoded s r b h204 k hms]
      show (valueDone s r).1 = _ ∧ (valueDone s r).2 = true
      simp [valueDone, h303]
  · intro hr hmsg h200 hcomp
    have h204 : r.code ≠ 204 := by omega
    have h303 : r.code ≠ 303 := by omega
    obtain ⟨b, hb⟩ := callStep_state s r x hr
    rcases hms : msgState r with _ | k
    · exact absurd hms hmsg
    · rw [hb, afterTransport_decoded s r b h204 k hms]
      show (valueDone s r).1 = _ ∧ (valueDone s r).2 = true
      simp [valueDone, h200, h303, hcomp]

/-- Witness for `completion_detection`: a 200 response with
`status: "complete"` and a nested `result` completes the fresh
connection and exposes the unwrapped result. -/
theorem completion_detection_witness :
    (callStep initConn
        ⟨200, none, none,
          .jsonObj [("status", .str "complete"), ("result", .num 7)]⟩
        false).1.value = .json (.num 7) ∧
    (callStep initConn
        ⟨200, none, none,
          .jsonObj [("status", .str "complete"), ("result", .num 7)]⟩
        false).1.done = true := by
  obtain ⟨h1, h2⟩ := (completion_detection initConn
    ⟨200, none, none, .jsonObj [("status", .str "complete"), ("result", .num 7)]⟩
    false).2.2.2 (by decide) (by decide) rfl (by rfl)
  exact ⟨h1, h2⟩

/-! ## Claim C5: the download loop of `execute` -/

/-- One `_transfer` attempt from a disk state holding `cumBytes tries`
bytes returns `cumBytes (tries+1)`. -/
lemma transferStep_returned (chunks : Nat → List (List Nat)) (tries : Nat)
    (disk : Option (List Nat))
    (hd : (disk.getD []).length = cumBytes chunks tries) :
    (transferStep disk (chunks tries)).returned = cumBytes chunks (tries + 1) := by
  rcases disk with _ | c
  · simp only [Option.getD, List.length_nil] at hd
    simp [transferStep, cumBytes, ← hd]
  · simp only [Option.getD] at hd
    simp only [transferStep, writeLoop_eq (chunks tries) c 0]
    simp [cumBytes, hd]

/-- ... and leaves a file of that length on disk. -/
lemma transferStep_fileAfter (chunks : Nat → List (List Nat)) (tries : Nat)
    (disk : Option (List Nat))
    (hd : (disk.getD []).length = cumBytes chunks tries) :
    (transferStep disk (chunks tries)).fileAfter.length =
      cumBytes chunks (tries + 1) := by
  rcases disk with _ | c
  · simp only [Option.getD, List.length_nil] at hd
    simp [transferStep, cumBytes, writeLoop_len, ← hd]
  · simp only [Option.getD] at hd
    simp only [transferStep, writeLoop_eq (chunks tries) c 0]
    simp [cumBytes, hd, writeLoop_len]

/-- Invariant of the `while size != result["size"] and tries < 10` loop:
from a consistent intermediate state it either stops at the first
attempt `n` whose accumulated size matches (with `n - 1` sleeps), or
runs 10 attempts and 10 sleeps and fails the assert. -/
lemma dlGo_spec (S : Int) (chunks : Nat → List (List Nat)) :
    ∀ (fuel tries : Nat) (disk : Option (List Nat)) (size : Int),
      fuel + tries = 11 →
      (disk.getD []).length = cumBytes chunks tries →
      ((size = -1 ∧ tries = 0 ∧ S ≠ -1) ∨
        (size = (cumBytes chunks tries : Int) ∧ 1 ≤ tries ∧ tries ≤ 10)) →
      (∀ m, 1 ≤ m → m ≤ tries → (cumBytes chunks m : Int) ≠ S) →
      ((∃ n, tries < n ∧ n ≤ 10 ∧
          dlGo S chunks fuel tries disk size tries tries =
            ⟨n, n - 1, (cumBytes chunks n : Int), true⟩ ∧
          (cumBytes chunks n : Int) = S ∧
          (∀ m, 1 ≤ m → m < n → (cumBytes chunks m : Int) ≠ S)) ∨
        ((∀ m, 1 ≤ m → m ≤ 10 → (cumBytes chunks m : Int) ≠ S) ∧
          dlGo S chunks fuel tries disk size tries tries =
            ⟨10, 10, (cumBytes chunks 10 : Int), false⟩)) := by
  intro fuel
  induction fuel with
  | zero =>
    intro tries disk size h11 hd hshape hmiss
    rcases hshape with ⟨-, h0, -⟩ | ⟨-, -, h10⟩ <;> omega
  | succ fuel ih =>
    intro tries disk size h11 hd hshape hmiss
    have hsz : size ≠ S := by
      rcases hshape with ⟨h1, -, h3⟩ | ⟨h1, h2, -⟩
      · rw [h1]; exact fun hc => h3 hc.symm
      · rw [h1]; exact hmiss tries h2 (Nat.le_refl _)
    by_cases ht : tries < 10
    · simp only [dlGo, if_pos (And.intro hsz ht)]
      rw [transferStep_returned chunks tries disk hd]
      by_cases hS : (cumBytes chunks (tries + 1) : Int) = S
      · have : ¬ ((cumBytes chunks (tries + 1) : Int) ≠ S ∧ tries < 10) :=
          fun hc => hc.1 hS
        rw [if_neg this]
        refine Or.inl ⟨tries + 1, by omega, by omega, ?_, hS, ?_⟩
        · simp [hS]
        · intro m hm1 hm2
          exact hmiss m hm1 (by omega)
      · rw [if_pos (And.intro hS ht)]
        have hrec := ih (tries + 1)
          (some (transferStep disk (chunks tries)).fileAfter)
          ((cumBytes chunks (tries + 1) : Int))
          (by omega)
          (by simpa using transferStep_fileAfter chunks tries disk hd)
          (Or.inr ⟨rfl, by omega, by omega⟩)
          (by
            intro m hm1 hm2
            rcases Nat.lt_or_ge m (tries + 1) with hlt | hge
            · exact hmiss m hm1 (by omega)
            · have : m = tries + 1 := by omega
              rw [this]; exact hS)
        rcases hrec with ⟨n, hn1, hn2, hn3, hn4, hn5⟩ | ⟨hh1, hh2⟩
        · exact Or.inl ⟨n, by omega, hn2, hn3, hn4, hn5⟩
        · exact Or.inr ⟨hh1, hh2⟩
    · have h10 : tries = 10 := by
        rcases hshape with ⟨-, h0, -⟩ | ⟨-, -, hle⟩ <;> omega
      have hcond : ¬ (size ≠ S ∧ tries < 10) := fun hc => ht hc.2
      simp only [dlGo, if_neg hcond]
      refine Or.inr ⟨fun m hm1 hm2 => hmiss m hm1 (by omega), ?_⟩
      subst h10
      rcases hshape with ⟨-, h0, -⟩ | ⟨h1, -, -⟩
      · omega
      · rw [h1] at hsz ⊢
        simp [hsz]

/-- Claim C5: with a local target, `execute` first truncates any
pre-existing file (so the loop is insensitive to stale content), then
runs `_transfer` in a loop of at most 10 attempts with a 60-second sleep
between failed attempts, exiting at the first attempt whose accumulated
on-disk size equals the expected `size`; if no attempt within the budget
matches, the `assert size == result["size"]` fails (`assertOk = false`):
`execute` raises the integrity error instead of returning.  (When the
server-expected size is the `-1` sentinel value of the loop variable the
loop body never runs and the assert passes vacuously.) -/
theorem execute_download_spec (S : Int) (chunks : Nat → List (List Nat))
    (pre : Option (List Nat)) :
    (∀ c, executeDownload S chunks (some c) = executeDownload S chunks (some [])) ∧
    (executeDownload S chunks pre).attempts ≤ 10 ∧
    ((executeDownload S chunks pre).assertOk = true ↔
      (executeDownload S chunks pre).finalSize = S) ∧
    (S = -1 → executeDownload S chunks pre = ⟨0, 0, -1, true⟩) ∧
    (S ≠ -1 →
      (∃ n, 1 ≤ n ∧ n ≤ 10 ∧
        executeDownload S chunks pre = ⟨n, n - 1, (cumBytes chunks n : Int), true⟩ ∧
        (cumBytes chunks n : Int) = S ∧
        ∀ m, 1 ≤ m → m < n → (cumBytes chunks m : Int) ≠ S) ∨
      ((∀ m, 1 ≤ m → m ≤ 10 → (cumBytes chunks m : Int) ≠ S) ∧
        executeDownload S chunks pre = ⟨10, 10, (cumBytes chunks 10 : Int), false⟩)) := by
  have hneg : S = -1 → executeDownload S chunks pre = ⟨0, 0, -1, true⟩ := by
    rintro rfl
    rcases pre with _ | c <;> simp [executeDownload, dlGo]
  have hmain : S ≠ -1 →
      (∃ n, 1 ≤ n ∧ n ≤ 10 ∧
        executeDownload S chunks pre = ⟨n, n - 1, (cumBytes chunks n : Int), true⟩ ∧
        (cumBytes chunks n : Int) = S ∧
        ∀ m, 1 ≤ m → m < n → (cumBytes chunks m : Int) ≠ S) ∨
      ((∀ m, 1 ≤ m → m ≤ 10 → (cumBytes chunks m : Int) ≠ S) ∧
        executeDownload S chunks pre = ⟨10, 10, (cumBytes chunks 10 : Int), false⟩) := by
    intro hS
    have run : ∀ (d0 : Option (List Nat)),
        (d0.getD []).length = cumBytes chunks 0 →
        (∃ n, 0 < n ∧ n ≤ 10 ∧
          dlGo S chunks 11 0 d0 (-1) 0 0 =
            ⟨n, n - 1, (cumBytes chunks n : Int), true⟩ ∧
          (cumBytes chunks n : Int) = S ∧
          (∀ m, 1 ≤ m → m < n → (cumBytes chunks m : Int) ≠ S)) ∨
        ((∀ m, 1 ≤ m → m ≤ 10 → (cumBytes chunks m : Int) ≠ S) ∧
          dlGo S chunks 11 0 d0 (-1) 0 0 =
            ⟨10, 10, (cumBytes chunks 10 : Int), false⟩) := by
      intro d0 hd
      exact dlGo_spec S chunks 11 0 d0 (-1) (by omega) hd
        (Or.inl ⟨rfl, rfl, hS⟩) (fun m hm1 hm2 => by omega)
    rcases pre with _ | c
    · have h := run none (by simp [cumBytes])
      simp only [executeDownload]
      rcases h with ⟨n, hn1, hn2, hn3, hn4, hn5⟩ | ⟨hh1, hh2⟩
      · exact Or.inl ⟨n, by omega, hn2, hn3, hn4, hn5⟩
      · exact Or.inr ⟨hh1, hh2⟩
    · have h := run (some []) (by simp [cumBytes])
      simp only [executeDownload]
      rcases h with ⟨n, hn1, hn2, hn3, hn4, hn5⟩ | ⟨hh1, hh2⟩
      · exact Or.inl ⟨n, by omega, hn2, hn3, hn4, hn5⟩
      · exact Or.inr ⟨hh1, hh2⟩
  refine ⟨fun c => rfl, ?_, ?_, hneg, hmain⟩
  · by_cases hS : S = -1
    · rw [hneg hS]; exact Nat.zero_le 10
    · rcases hmain hS with ⟨n, -, hn2, hn3, -, -⟩ | ⟨-, hh2⟩
      · rw [hn3]; exact hn2
      · rw [hh2]
  · by_cases hS : S = -1
    · rw [hneg hS]
      show true = true ↔ (-1 : Int) = S
      simp [hS]
    · rcases hmain hS with ⟨n, -, -, hn3, hn4, -⟩ | ⟨hh1, hh2⟩
      · rw [hn3]
        show true = true ↔ (cumBytes chunks n : Int) = S
        simp [hn4]
      · rw [hh2]
        show false = true ↔ (cumBytes chunks 10 : Int) = S
        simp only [Bool.false_eq_true, false_iff]
        exact hh1 10 (by omega) (by omega)

/-- Witness for `execute_download_spec`: a five-byte file delivered in
one attempt, and the degenerate `-1` expected size. -/
theorem execute_download_spec_witness :
    (executeDownload 5 (fun _ => [[1, 2, 3, 4, 5]]) none).attempts ≤ 10 ∧
    executeDownload (-1) (fun _ => []) none = ⟨0, 0, -1, true⟩ := by
  refine ⟨(execute_download_spec 5 (fun _ => [[1, 2, 3, 4, 5]]) none).2.1, ?_⟩
  exact (execute_download_spec (-1) (fun _ => []) none).2.2.2.1 rfl

/-! ## Claim C10: partiality of `_bytename` -/

/-- The `while 1024 < size` loop escapes with `KeyError` exactly when the
value exceeds `1024 ^ (remaining-chain-length + 1)`. -/
lemma bytenameLoop_none_iff :
    ∀ (rem : List String) (l : String) (q : ℚ) (d : Nat),
      (bytenameLoop rem l q d = none ↔ (1024 : ℚ) ^ (rem.length + 1) < q) := by
  intro rem
  induction rem with
  | nil =>
    intro l q d
    simp only [bytenameLoop, List.length_nil, Nat.zero_add, pow_one]
    split_ifs with h
    · simp [h]
    · simp [h]
  | cons p rest ih =>
    intro l q d
    simp only [bytenameLoop, List.length_cons]
    split_ifs with h
    · rw [ih p (q / 1024) (d + 1)]
      rw [lt_div_iff₀ (by norm_num : (0:ℚ) < 1024)]
      rw [← pow_succ]
    · refine iff_of_false (by simp) ?_
      rw [not_lt]
      calc q ≤ 1024 := not_lt.mp h
      _ = (1024 : ℚ) ^ 1 := (pow_one _).symm
      _ ≤ (1024 : ℚ) ^ (rest.length + 1 + 1) :=
        pow_le_pow_right₀ (by norm_num) (by omega)

/-- When the loop returns, it has divided at most `chain length` times
and the unit letter is the starting one or an element of the chain. -/
lemma bytenameLoop_some_spec :
    ∀ (rem : List String) (l : String) (q : ℚ) (d : Nat) (r : ℚ × String × Nat),
      bytenameLoop rem l q d = some r →
      r.2.2 ≤ d + rem.length ∧ (r.2.1 = l ∨ r.2.1 ∈ rem) := by
  intro rem
  induction rem with
  | nil =>
    intro l q d r h
    simp only [bytenameLoop] at h
    split_ifs at h
    injection h with h'
    subst h'
    exact ⟨Nat.le_add_right d _, Or.inl rfl⟩
  | cons p rest ih =>
    intro l q d r h
    simp only [bytenameLoop] at h
    split_ifs at h with hq
    · obtain ⟨h1, h2⟩ := ih p (q / 1024) (d + 1) r h
      refine ⟨by simpa [Nat.add_comm, Nat.add_left_comm] using h1, ?_⟩
      rcases h2 with h2 | h2
      · exact Or.inr (h2 ▸ List.mem_cons_self p rest)
      · exact Or.inr (List.mem_cons_of_mem p h2)
    · injection h with h'
      subst h'
      exact ⟨Nat.le_add_right d _, Or.inl rfl⟩

unseal Rat.mul Rat.add Rat.inv in
/-- Claim C10 counterexample: the claim fails in both directions.  At
size 512 (`< 1024^7`) the formatter returns with the empty unit letter,
which is not in the chain K..E; and at size `1024^7 + 1` (`> 1024^7`)
there is no `KeyError` at all, because `size * 1.0` rounds to the double
`2^70` exactly, so the loop stops at `1024` after six divisions. -/
theorem bytename_partiality_counterexample :
    (512 < 1024 ^ 7 ∧ (bytename 512).map ByteName.unit = some "" ∧
      "" ∉ bytenameChain) ∧
    ((1024 : Nat) ^ 7 < 2 ^ 70 + 1 ∧ (bytename (2 ^ 70 + 1)).isSome = true) := by
  refine ⟨⟨by norm_num, by decide, by decide⟩, by norm_num, by decide⟩

/-- Claim C10 (amended): the formatter is partial, but the escape
condition is measured on the IEEE-double rounding of the byte count:
for every size whose double rounding is at most `1024^7` the loop
terminates after at most six divisions by 1024 and returns with a unit
letter from the chain `"", K, M, G, T, P, E` (the empty letter for sizes
up to 1024, pluralizing exactly when the scaled magnitude exceeds 1),
and the `prefix` lookup raises `KeyError` exactly when the double
rounding of the size exceeds `1024^7` — which, by round-to-nearest-even,
first happens at `1024^7 + 2^17 + 1`, not at `1024^7 + 1`. -/
theorem bytename_amended (n : Nat) :
    (bytename n = none ↔ (1024 : ℚ) ^ 7 < floatOfNat n) ∧
    (∀ b, bytename n = some b →
      b.divisions ≤ 6 ∧ (b.unit = "" ∨ b.unit ∈ bytenameChain) ∧
      (b.plural = true ↔ 1 < b.scaled)) := by
  constructor
  · rw [show ((1024 : ℚ) ^ 7) = (1024 : ℚ) ^ (bytenameChain.length + 1) from by
      norm_num [bytenameChain]]
    rw [← bytenameLoop_none_iff bytenameChain "" (floatOfNat n) 0]
    unfold bytename
    rcases h : bytenameLoop bytenameChain "" (floatOfNat n) 0 with _ | ⟨s, l, d⟩
    · simp
    · simp [h]
  · intro b hb
    unfold bytename at hb
    rcases h : bytenameLoop bytenameChain "" (floatOfNat n) 0 with _ | ⟨s, l, d⟩
    · rw [h] at hb; cases hb
    · rw [h] at hb
      injection hb with hb'
      subst hb'
      obtain ⟨h1, h2⟩ := bytenameLoop_some_spec bytenameChain "" (floatOfNat n) 0
        (s, l, d) h
      exact ⟨by simpa [bytenameChain] using h1, by simpa using h2, by simp⟩

unseal Rat.mul Rat.add Rat.inv in
/-- Witness for `bytename_amended`: the first integer whose double
rounding exceeds `2^70` does raise the `KeyError`, while 512 formats as
`512 bytes` with the empty unit letter. -/
theorem bytename_amended_witness :
    bytename (2 ^ 70 + 2 ^ 17 + 1) = none ∧
    bytename 512 = some ⟨512, "", true, 0⟩ ∧
    ((⟨512, "", true, 0⟩ : ByteName).unit = "" ∨
      (⟨512, "", true, 0⟩ : ByteName).unit ∈ bytenameChain) := by
  refine ⟨(bytename_amended (2 ^ 70 + 2 ^ 17 + 1)).1.mpr (by decide), by decide, ?_⟩
  exact ((bytename_amended 512).2 ⟨512, "", true, 0⟩ (by decide)).2.1

end EcmwfApi
